import Mathlib

/-!
Shallow embedding of the audio_splitter repository (src/audiosplit.py and
src/audioutil.py) and verification of its specification claims.

Modelling conventions: Python integers are Lean Int (both unbounded); a decoded
waveform is a list of per-millisecond sample values (pydub AudioSegment slicing
is by milliseconds); the sample-level silence test (a chunk dBFS comparison in
pydub, floating point) is the external capability the spec places out of scope
and is abstracted as a Boolean predicate on chunks; fallible conversion is
Option.  All definitions are executable.
-/

namespace AudioSplitter

/-- SongInfo dataclass of audiosplit.py.  The source initialises year to the
empty string and only assigns an integer once a Year line is seen, so the field
is modelled as an optional natural number.  Durations are in milliseconds. -/
structure SongInfo where
  artist : String
  album : String
  title : String
  year : Option Nat
  track_number : Nat
  duration : Int
deriving DecidableEq

/-- Characterwise model of the Python str.split call with a single-character
separator, as used by duration_string_to_millis on the colon character. -/
def splitOnColon : List Char → List (List Char)
  | [] => [[]]
  | c :: cs =>
    if c = ':' then [] :: splitOnColon cs
    else
      match splitOnColon cs with
      | [] => [[c]]
      | h :: t => (c :: h) :: t

/-- Model of the Python builtin int() conversion applied by
duration_string_to_millis: surrounding whitespace is stripped, one optional
sign is allowed, and the remainder must be a nonempty run of decimal digits;
any other shape raises ValueError, modelled as none. -/
def pyIntChars (cs : List Char) : Option Int :=
  let t := ((cs.dropWhile Char.isWhitespace).reverse.dropWhile Char.isWhitespace).reverse
  match t with
  | [] => none
  | c :: rest =>
    let sd : Int × List Char :=
      if c = '-' then (-1, rest) else if c = '+' then (1, rest) else (1, c :: rest)
    if sd.2 ≠ [] ∧ sd.2.all Char.isDigit then
      some (sd.1 * sd.2.foldl (fun n d => n * 10 + ((d.toNat : Int) - 48)) 0)
    else none

/-- audiosplit.py duration_string_to_millis: split on the colon, require
exactly two chunks, convert both with int(), reject a negative component, and
return minutes * 60 * 1000 + seconds * 1000; every failure returns -1. -/
def duration_string_to_millis (duration : String) : Int :=
  match splitOnColon duration.toList with
  | [mc, sc] =>
    match pyIntChars mc, pyIntChars sc with
    | some minutes, some seconds =>
      if minutes < 0 ∨ seconds < 0 then -1
      else minutes * 60 * 1000 + seconds * 1000
    | _, _ => -1
  | _ => -1

/-- The decomposition performed by duration_millis_to_str (identical in
audiosplit.py and audioutil.py): after taking the absolute value, successive
divmod by 1000, 60, 60, 24 yields (dd, hh, mm, ss, lll). -/
def duration_decompose (duration : Int) : Nat × Nat × Nat × Nat × Nat :=
  let d0 := duration.natAbs
  let lll := d0 % 1000
  let d1 := d0 / 1000
  let ss := d1 % 60
  let d2 := d1 / 60
  let mm := d2 % 60
  let d3 := d2 / 60
  let hh := d3 % 24
  let dd := d3 / 24
  (dd, hh, mm, ss, lll)

/-- Python str.zfill on the digit strings produced here: left-pad with zeros up
to the requested width. -/
def zfill (s : String) (n : Nat) : String :=
  if s.length < n then String.mk (List.replicate (n - s.length) '0') ++ s else s

/-- duration_millis_to_str from audiosplit.py / audioutil.py: sign is a leading
dash for negative input, the magnitude is decomposed by duration_decompose and
printed with 2-digit fields (3 for milliseconds), the millisecond suffix being
omitted when short is set. -/
def duration_millis_to_str (duration : Int) (short : Bool) : String :=
  let sign := if duration ≥ 0 then "" else "-"
  let p := duration_decompose duration
  let dd := p.1
  let hh := p.2.1
  let mm := p.2.2.1
  let ss := p.2.2.2.1
  let lll := p.2.2.2.2
  let tail := if short then "" else "." ++ zfill (toString lll) 3
  if dd > 0 then
    sign ++ zfill (toString dd) 2 ++ (":") ++ zfill (toString hh) 2 ++ (":") ++
      zfill (toString mm) 2 ++ (":") ++ zfill (toString ss) 2 ++ tail
  else if hh > 0 then
    sign ++ zfill (toString hh) 2 ++ (":") ++ zfill (toString mm) 2 ++ (":") ++
      zfill (toString ss) 2 ++ tail
  else
    sign ++ zfill (toString mm) 2 ++ (":") ++ zfill (toString ss) 2 ++ tail

/-- One iteration bound of pydub silence.detect_leading_silence with
chunk_size = Defaults.SEEK_STEP = 20: while the next 20 ms chunk is silent and
the cursor is inside the sound, advance by 20; finally clamp to the length.
The fuel argument only bounds the recursion: every iteration requires
trim < sound.length and advances trim by 20, so sound.length + 1 iterations
can never be exhausted and the function equals the Python while loop. -/
def dls_loop (silent : List Int → Bool) (sound : List Int) : Nat → Nat → Nat
  | 0, trim => min trim sound.length
  | fuel + 1, trim =>
    if trim < sound.length ∧ silent ((sound.drop trim).take 20) then
      dls_loop silent sound fuel (trim + 20)
    else min trim sound.length

/-- pydub silence.detect_leading_silence as called by the repository (always
with chunk_size = Defaults.SEEK_STEP = 20).  The chunk dBFS threshold test is
the external sample-level capability, abstracted as the predicate silent. -/
def detect_leading_silence (silent : List Int → Bool) (sound : List Int) : Nat :=
  dls_loop silent sound (sound.length + 1) 0

/-- Python slice a[start : -negEnd] on a list, for a Nat start and a negative
end offset negEnd ≥ 1: the elements at indices start .. length - negEnd - 1
(empty when the bounds cross, matching Python clamping). -/
def pySliceNegEnd (l : List Int) (start negEnd : Nat) : List Int :=
  (l.drop start).take (l.length - negEnd - start)

/-- Python slice a[:b] with a possibly negative bound b. -/
def pySliceTo (l : List Int) (b : Int) : List Int :=
  if 0 ≤ b then l.take b.toNat else l.take (l.length - b.natAbs)

/-- Python slice a[b:] with a possibly negative bound b. -/
def pySliceFrom (l : List Int) (b : Int) : List Int :=
  if 0 ≤ b then l.drop b.toNat else l.drop (l.length - b.natAbs)

/-- strip_audio_segment from audiosplit.py: detect leading silence, detect
trailing silence on the reversed audio, floor the trailing length to 1 (the
source comment: without this the slice would be [:-0], which is utterly
different to [:-1]), and return audio[leading:-trailing] with both lengths. -/
def strip_audio_segment (silent : List Int → Bool) (audio : List Int) :
    List Int × Nat × Nat :=
  let leading_silence := detect_leading_silence silent audio
  let trailing_silence := detect_leading_silence silent audio.reverse
  let trailing_silence := max trailing_silence 1
  (pySliceNegEnd audio leading_silence trailing_silence, leading_silence, trailing_silence)

/-- segments_strip from audioutil.py: the same leading/trailing strip applied
to every (path, segment) pair of a batch. -/
def segments_strip (silent : List Int → Bool) (segments : List (String × List Int)) :
    List (String × List Int) :=
  segments.map (fun ps =>
    let leading_silence := detect_leading_silence silent ps.2
    let ending_silence := max (detect_leading_silence silent ps.2.reverse) 1
    (ps.1, pySliceNegEnd ps.2 leading_silence ending_silence))

/-- The inner while loop of process_audio_into_segments for one track: pull
silent intervals from the generator until one satisfies
track.duration - tolerance <= interval_end - time_offset.  Returns the number
of intervals skipped for this track, the matched interval, and the generator
remainder; none when the generator is exhausted first. -/
def findMatch (dur tolerance time_offset : Int) :
    List (Int × Int) → Option (Nat × (Int × Int) × List (Int × Int))
  | [] => none
  | (s, e) :: rest =>
    if dur - tolerance ≤ e - time_offset then some (0, (s, e), rest)
    else (findMatch dur tolerance time_offset rest).map (fun r => (r.1 + 1, r.2))

/-- One element appended to audio_segments by process_audio_into_segments:
the pair (audio_segment, track) the source stores, together with the matched
silent interval (the values logged by gui.log_splice) and the generator cursor
position at which it was found (the count of next() calls already made). -/
structure Emitted where
  segment : List Int
  track : SongInfo
  boundary : Int × Int
  index : Nat
deriving DecidableEq

/-- The track loop of process_audio_into_segments.  For each track in
tracklist order the generator is advanced to the first qualifying silent
interval; on a match the source cuts audio[:silence_begin], strips it, emits
(audio_segment, track), replaces audio by audio[silence_end:], adds
silence_end to time_offset and breaks; when the generator is exhausted it
stays exhausted, so no later track emits anything. -/
def process (silent : List Int → Bool) (tolerance : Int) :
    List SongInfo → List Int → Int → Nat → List (Int × Int) → List Emitted
  | [], _, _, _, _ => []
  | track :: tracks, audio, time_offset, cursor, ivs =>
    match findMatch track.duration tolerance time_offset ivs with
    | none => []
    | some (k, iv, rest) =>
      let silence_begin := iv.1 - time_offset
      let silence_end := iv.2 - time_offset
      ⟨(strip_audio_segment silent (pySliceTo audio silence_begin)).1, track, iv, cursor + k⟩ ::
        process silent tolerance tracks (pySliceFrom audio silence_end)
          (time_offset + silence_end) (cursor + k + 1) rest

/-- Matcher core of process_audio_into_segments from audiosplit.py.  Decoding
the file, the initial whole-album strip, the optional loudness shift and
silence.detect_silence are the external front end; the embedding receives the
prepared waveform and its detected interior silent intervals.  The function
appends the synthetic terminal interval [len(audio), len(audio)] and runs the
track loop from offset 0 with a fresh generator. -/
def process_audio_into_segments (silent : List Int → Bool) (tolerance : Int)
    (audio : List Int) (silent_segments : List (Int × Int))
    (tracklist : List SongInfo) : List Emitted :=
  process silent tolerance tracklist audio 0 0
    (silent_segments ++ [((audio.length : Int), (audio.length : Int))])

/-- One line of the tracklist file, as classified by the four regexes of
parse_album_info; song keeps the raw captured duration text (the third regex
group), and other stands for a line matched by no regex (silently ignored). -/
inductive TrackLine
  | album (title : String)
  | artist (name : String)
  | year (y : Nat)
  | song (number : Nat) (title : String) (dur : String)
  | other (line : String)
deriving DecidableEq

/-- The mutable locals of the parse_album_info loop: the tracks accumulated so
far and the album / artist / year values most recently seen. -/
structure ParseAcc where
  tracks : List SongInfo
  album : String
  artist : String
  year : Option Nat
deriving DecidableEq

/-- One iteration of the parse_album_info line loop.  A song line appends
SongInfo(artist, album, title, year, number, max(duration, 0)) where duration
is duration_string_to_millis of the captured text. -/
def parse_album_info_step (acc : ParseAcc) : TrackLine → ParseAcc
  | TrackLine.album t => ⟨acc.tracks, t, acc.artist, acc.year⟩
  | TrackLine.artist a => ⟨acc.tracks, acc.album, a, acc.year⟩
  | TrackLine.year y => ⟨acc.tracks, acc.album, acc.artist, some y⟩
  | TrackLine.song number title dur =>
    ⟨acc.tracks ++
        [⟨acc.artist, acc.album, title, acc.year, number,
          max (duration_string_to_millis dur) 0⟩],
      acc.album, acc.artist, acc.year⟩
  | TrackLine.other _ => acc

/-- parse_album_info from audiosplit.py over the classified lines of the
tracklist file: fold the line loop from empty state and return the tracks in
the order their lines occur in the file. -/
def parse_album_info (lines : List TrackLine) : List SongInfo :=
  (lines.foldl parse_album_info_step ⟨[], "", "", none⟩).tracks

/-- The track numbers of the song lines of a tracklist file, in file order. -/
def songNumbers (lines : List TrackLine) : List Nat :=
  lines.filterMap (fun l =>
    match l with
    | TrackLine.song n _ _ => some n
    | _ => none)

/-- A concrete instance of the abstracted chunk-silence capability, used by the
concrete evaluations below: a chunk is silent when all its samples are 0. -/
def allZeroSilent (chunk : List Int) : Bool :=
  chunk.all (fun x => x == 0)

/-- A one-track tracklist with expected duration 60000 ms, used by the
concrete evaluations below. -/
def demoTrack : SongInfo :=
  ⟨("demo artist"), ("demo album"), ("demo title"), none, 1, 60000⟩

example : duration_string_to_millis ("1:00") = 60000 := by decide

example : duration_string_to_millis ("1:2:3") = -1 := by decide

/-- Characterization of one track scan: a returned triple (k, iv, rest) means
iv is the interval at position k of the remaining sequence, iv qualifies, rest
is everything after it, and every earlier remaining interval fails the test. -/
theorem findMatch_spec {dur tol o : Int} {ivs : List (Int × Int)} {k : Nat}
    {iv : Int × Int} {rest : List (Int × Int)}
    (h : findMatch dur tol o ivs = some (k, iv, rest)) :
    ivs.get? k = some iv ∧ dur - tol ≤ iv.2 - o ∧ rest = ivs.drop (k + 1) ∧
      ∀ j b, j < k → ivs.get? j = some b → b.2 - o < dur - tol := by
  induction ivs generalizing k rest with
  | nil => simp [findMatch] at h
  | cons hd tl ih =>
    obtain ⟨s, e⟩ := hd
    by_cases hc : dur - tol ≤ e - o
    · rw [findMatch, if_pos hc] at h
      obtain ⟨rfl, rfl, rfl⟩ : 0 = k ∧ (s, e) = iv ∧ tl = rest := by
        simpa [eq_comm] using h
      refine ⟨rfl, hc, rfl, ?_⟩
      intro j b hj _
      omega
    · rw [findMatch, if_neg hc, Option.map_eq_some'] at h
      obtain ⟨⟨k0, iv0, rest0⟩, hm, hf⟩ := h
      obtain ⟨rfl, rfl, rfl⟩ : k0 + 1 = k ∧ iv0 = iv ∧ rest0 = rest := by
        simpa using hf
      obtain ⟨hg, hq, hr, hmin⟩ := ih hm
      refine ⟨hg, hq, hr, ?_⟩
      intro j b hj hb
      match j with
      | 0 =>
        obtain rfl : (s, e) = b := by simpa using hb
        omega
      | j + 1 =>
        exact hmin j b (by omega) hb

/-- If some remaining interval qualifies, the track scan succeeds and stops at
or before that interval. -/
theorem findMatch_of_qualifying {dur tol o : Int} {ivs : List (Int × Int)}
    {j : Nat} {b : Int × Int}
    (hj : ivs.get? j = some b) (hb : dur - tol ≤ b.2 - o) :
    ∃ k iv rest, findMatch dur tol o ivs = some (k, iv, rest) ∧ k ≤ j := by
  induction ivs generalizing j with
  | nil => simp [List.get?] at hj
  | cons hd tl ih =>
    obtain ⟨s, e⟩ := hd
    by_cases hc : dur - tol ≤ e - o
    · exact ⟨0, (s, e), tl, by rw [findMatch, if_pos hc], Nat.zero_le j⟩
    · match j with
      | 0 =>
        obtain rfl : (s, e) = b := by simpa using hj
        exact absurd hb hc
      | j + 1 =>
        obtain ⟨k0, iv0, rest0, hm, hk⟩ := ih hj
        refine ⟨k0 + 1, iv0, rest0, ?_, by omega⟩
        rw [findMatch, if_neg hc, hm]
        rfl

/-- In a list whose second components are pairwise nondecreasing, the element
at an earlier or equal position has a second component at most that of the
element at a later position. -/
theorem pairwise_ends_le {full : List (Int × Int)}
    (hp : List.Pairwise (fun a b => a.2 ≤ b.2) full)
    {i j : Nat} {a b : Int × Int} (hij : i ≤ j)
    (ha : full.get? i = some a) (hb : full.get? j = some b) : a.2 ≤ b.2 := by
  rcases Nat.eq_or_lt_of_le hij with heq | hlt
  · subst heq
    rw [ha] at hb
    obtain rfl : a = b := by simpa using hb
    exact le_refl _
  · obtain ⟨hi, ha2⟩ := List.get?_eq_some.mp ha
    obtain ⟨hj2, hb2⟩ := List.get?_eq_some.mp hb
    have h := List.pairwise_iff_get.mp hp ⟨i, hi⟩ ⟨j, hj2⟩ (Fin.mk_lt_mk.mpr hlt)
    rw [ha2, hb2] at h
    exact h

/-- The tracks of the emitted segments form a sublist of the tracklist: each
track yields at most one segment and tracklist order is preserved. -/
theorem process_track_sublist (silent : List Int → Bool) (tol : Int) :
    ∀ (ts : List SongInfo) (a : List Int) (o : Int) (c : Nat)
      (ivs : List (Int × Int)),
      ((process silent tol ts a o c ivs).map Emitted.track).Sublist ts := by
  intro ts
  induction ts with
  | nil => intro a o c ivs; simp [process]
  | cons t ts ih =>
    intro a o c ivs
    rcases hm : findMatch t.duration tol o ivs with _ | ⟨k, iv, rest⟩
    · simp [process, hm]
    · simp only [process, hm, List.map_cons]
      exact List.Sublist.cons₂ t (ih _ _ _ _)

/-- The generator cursor: when the interval argument is the cursor-aligned
suffix of the full sequence, every emitted segment records its matched interval
at its recorded position of the full sequence, positions never precede the
cursor, and successive positions strictly increase. -/
theorem process_cursor_spec (silent : List Int → Bool) (tol : Int)
    (full : List (Int × Int)) :
    ∀ (ts : List SongInfo) (a : List Int) (o : Int) (c : Nat),
      (∀ x ∈ process silent tol ts a o c (full.drop c),
          c ≤ x.index ∧ full.get? x.index = some x.boundary) ∧
        List.Pairwise (fun m n => m < n)
          ((process silent tol ts a o c (full.drop c)).map Emitted.index) := by
  intro ts
  induction ts with
  | nil => intro a o c; simp [process]
  | cons t ts ih =>
    intro a o c
    rcases hm : findMatch t.duration tol o (full.drop c) with _ | ⟨k, iv, rest⟩
    · constructor
      · intro x hx
        simp [process, hm] at hx
      · simp [process, hm]
    · obtain ⟨hg, hq, hr, hmin⟩ := findMatch_spec hm
      have hg2 : full.get? (c + k) = some iv := by
        rw [← List.get?_drop]
        exact hg
      have hrest : rest = full.drop (c + k + 1) := by
        rw [hr, List.drop_drop]
        congr 1
      obtain ⟨ih1, ih2⟩ := ih (pySliceFrom a (iv.2 - o)) (o + (iv.2 - o)) (c + k + 1)
      have hout :
          process silent tol (t :: ts) a o c (full.drop c) =
            ⟨(strip_audio_segment silent (pySliceTo a (iv.1 - o))).1, t, iv, c + k⟩ ::
              process silent tol ts (pySliceFrom a (iv.2 - o)) (o + (iv.2 - o))
                (c + k + 1) (full.drop (c + k + 1)) := by
        simp only [process, hm, hrest]
      rw [hout]
      constructor
      · intro x hx
        rcases List.mem_cons.mp hx with rfl | hx2
        · exact ⟨Nat.le_add_right c k, hg2⟩
        · obtain ⟨h1, h2⟩ := ih1 x hx2
          exact ⟨by omega, h2⟩
      · rw [List.map_cons, List.pairwise_cons]
        refine ⟨?_, ih2⟩
        intro y hy
        obtain ⟨x, hx, rfl⟩ := List.mem_map.mp hy
        have hge := (ih1 x hx).1
        show c + k < x.index
        omega

/-- Core monotonicity: scanning the same track list over the same sorted full
interval sequence, a run with a looser tolerance, an offset at most the other
run's, and a cursor at most the other run's, emits at least as many segments. -/
theorem process_length_mono {full : List (Int × Int)}
    (hp : List.Pairwise (fun a b => a.2 ≤ b.2) full) :
    ∀ (ts : List SongInfo) (s1 s2 : List Int → Bool) (t1 t2 o1 o2 : Int)
      (a1 a2 : List Int) (c1 c2 x1 x2 : Nat),
      t1 ≤ t2 → o2 ≤ o1 → c2 ≤ c1 →
      (process s1 t1 ts a1 o1 x1 (full.drop c1)).length ≤
        (process s2 t2 ts a2 o2 x2 (full.drop c2)).length := by
  intro ts
  induction ts with
  | nil =>
    intro s1 s2 t1 t2 o1 o2 a1 a2 c1 c2 x1 x2 _ _ _
    simp [process]
  | cons t ts ih =>
    intro s1 s2 t1 t2 o1 o2 a1 a2 c1 c2 x1 x2 ht ho hc
    rcases h1 : findMatch t.duration t1 o1 (full.drop c1) with _ | ⟨k1, iv1, rest1⟩
    · simp only [process, h1]
      exact Nat.zero_le _
    · obtain ⟨hg1, hq1, hr1, _⟩ := findMatch_spec h1
      have hg1f : full.get? (c1 + k1) = some iv1 := by
        rw [← List.get?_drop]
        exact hg1
      have hpos : (full.drop c2).get? (c1 + k1 - c2) = some iv1 := by
        rw [List.get?_drop]
        have harith : c2 + (c1 + k1 - c2) = c1 + k1 := by omega
        rw [harith]
        exact hg1f
      have hq2 : t.duration - t2 ≤ iv1.2 - o2 := by omega
      obtain ⟨k2, iv2, rest2, h2, hk2⟩ := findMatch_of_qualifying hpos hq2
      obtain ⟨hg2, hq2b, hr2, _⟩ := findMatch_spec h2
      have hg2f : full.get? (c2 + k2) = some iv2 := by
        rw [← List.get?_drop]
        exact hg2
      have hend : iv2.2 ≤ iv1.2 :=
        pairwise_ends_le hp (by omega) hg2f hg1f
      have hrest1 : rest1 = full.drop (c1 + k1 + 1) := by
        rw [hr1, List.drop_drop]
        congr 1
      have hrest2 : rest2 = full.drop (c2 + k2 + 1) := by
        rw [hr2, List.drop_drop]
        congr 1
      simp only [process, h1, h2, hrest1, hrest2, List.length_cons]
      apply Nat.succ_le_succ
      have e1 : o1 + (iv1.2 - o1) = iv1.2 := by ring
      have e2 : o2 + (iv2.2 - o2) = iv2.2 := by ring
      rw [e1, e2]
      refine ih _ _ _ _ _ _ _ _ _ _ _ _ ht hend ?_
      omega

/-- The track numbers accumulated by the parse loop extend the accumulator's
with the song-line numbers in file order. -/
theorem parse_tracks_numbers (lines : List TrackLine) :
    ∀ acc : ParseAcc,
      ((lines.foldl parse_album_info_step acc).tracks).map SongInfo.track_number =
        acc.tracks.map SongInfo.track_number ++ songNumbers lines := by
  induction lines with
  | nil => intro acc; simp [songNumbers]
  | cons l ls ih =>
    intro acc
    cases l with
    | album t => simp [parse_album_info_step, songNumbers, ih, List.filterMap_cons]
    | artist a => simp [parse_album_info_step, songNumbers, ih, List.filterMap_cons]
    | year y => simp [parse_album_info_step, songNumbers, ih, List.filterMap_cons]
    | song n ti d =>
      have h := ih (parse_album_info_step acc (TrackLine.song n ti d))
      simp only [List.foldl_cons] at *
      rw [h]
      simp [parse_album_info_step, songNumbers, List.filterMap_cons]
    | other s => simp [parse_album_info_step, songNumbers, ih, List.filterMap_cons]

/-- A tracklist file ending in a song line yields that song as the last parsed
track, with duration max(duration_string_to_millis(text), 0). -/
theorem parse_album_info_last_duration (pre : List TrackLine) (n : Nat)
    (title s : String) :
    ((parse_album_info (pre ++ [TrackLine.song n title s])).getLast?).map
        SongInfo.duration = some (max (duration_string_to_millis s) 0) := by
  rw [parse_album_info, List.foldl_append]
  simp only [List.foldl_cons, List.foldl_nil]
  rw [parse_album_info_step]
  simp [List.getLast?_concat]

/-- C9: for every non-negative millisecond count, the decomposition produced by
duration_millis_to_str recomposes exactly:
dd * 86400000 + hh * 3600000 + mm * 60000 + ss * 1000 + lll = ms. -/
theorem c9_duration_decompose_recomposes (ms : Nat) :
    (duration_decompose (ms : Int)).1 * 86400000 +
      (duration_decompose (ms : Int)).2.1 * 3600000 +
      (duration_decompose (ms : Int)).2.2.1 * 60000 +
      (duration_decompose (ms : Int)).2.2.2.1 * 1000 +
      (duration_decompose (ms : Int)).2.2.2.2 = ms := by
  simp only [duration_decompose, Int.natAbs_ofNat]
  omega

/-- C1: for every track processed by the matcher, the boundary chosen by the
inner scan is the earliest remaining silent interval whose offset-relative end
time satisfies expected_duration - tolerance <= rel_end (earlier remaining
intervals all fail the test); and in the claim's concrete instance — tracklist
[(dur=60000)], tolerance 0, intervals [(59000,60500),(120000,120100)] plus the
synthetic terminal — the emitted boundary is the first interval (59000,60500). -/
theorem c1_earliest_qualifying_boundary {dur tol o : Int} {ivs : List (Int × Int)}
    {k : Nat} {iv : Int × Int} {rest : List (Int × Int)}
    (h : findMatch dur tol o ivs = some (k, iv, rest)) :
    (ivs.get? k = some iv ∧ dur - tol ≤ iv.2 - o ∧
        rest = ivs.drop (k + 1) ∧
        ∀ j b, j < k → ivs.get? j = some b → b.2 - o < dur - tol) ∧
      (process_audio_into_segments allZeroSilent 0 []
          [(59000, 60500), (120000, 120100)] [demoTrack]).map Emitted.boundary =
        [(59000, 60500)] := by
  exact ⟨findMatch_spec h, by decide⟩

/-- Witness for C1: the matcher at the claim's concrete input chooses the
first interval, which is indeed at position 0 of the sequence. -/
theorem c1_earliest_qualifying_boundary_witness :
    ([((59000 : Int), (60500 : Int)), (120000, 120100)].get? 0 =
        some (59000, 60500)) ∧
      (process_audio_into_segments allZeroSilent 0 []
          [(59000, 60500), (120000, 120100)] [demoTrack]).map Emitted.boundary =
        [(59000, 60500)] := by
  have h := @c1_earliest_qualifying_boundary 60000 0 0
      [((59000 : Int), (60500 : Int)), (120000, 120100)] 0 (59000, 60500)
      [(120000, 120100)] (by decide)
  exact ⟨h.1.1, h.2⟩

/-- C5: the matcher always scans the detected intervals with the synthetic
terminal interval (len(waveform), len(waveform)) appended, and as a
consequence a track with no detected interior silence is cut at the end of
the audio whenever the end of the audio satisfies its duration test. -/
theorem c5_synthetic_terminal (silent : List Int → Bool) (tol : Int)
    (audio : List Int) (ivs : List (Int × Int)) (ts : List SongInfo) :
    process_audio_into_segments silent tol audio ivs ts =
        process silent tol ts audio 0 0
          (ivs ++ [((audio.length : Int), (audio.length : Int))]) ∧
      ∀ t : SongInfo, t.duration - tol ≤ (audio.length : Int) →
        (process_audio_into_segments silent tol audio [] [t]).map Emitted.boundary =
          [((audio.length : Int), (audio.length : Int))] := by
  refine ⟨rfl, ?_⟩
  intro t ht
  have hcond : t.duration - tol ≤ ((audio.length : Int)) - 0 := by omega
  have hm : findMatch t.duration tol 0
      [((audio.length : Int), (audio.length : Int))] =
      some (0, ((audio.length : Int), (audio.length : Int)), []) := by
    rw [findMatch, if_pos hcond]
  simp [process_audio_into_segments, process, hm]

/-- Witness for C5 on a 5-element waveform of length 1 ms times five — a
one-sample list of length 1 would also do; the emitted boundary is the end of
audio. -/
theorem c5_synthetic_terminal_witness :
    (process_audio_into_segments allZeroSilent 0 [(5 : Int)] []
        [⟨("wa"), ("wb"), ("wc"), none, 1, 0⟩]).map Emitted.boundary =
      [((1 : Int), (1 : Int))] := by
  exact (c5_synthetic_terminal allZeroSilent 0 [(5 : Int)] []
      [⟨("wa"), ("wb"), ("wc"), none, 1, 0⟩]).2
    ⟨("wa"), ("wb"), ("wc"), none, 1, 0⟩ (by decide)

/-- C6: the emitted segments' tracks form a sublist of the tracklist, so there
are at most len(tracklist) segments, relative tracklist order is preserved,
and when the tracklist has no duplicate entries no track occurs in two
segments. -/
theorem c6_matcher_invariants (silent : List Int → Bool) (tol : Int)
    (audio : List Int) (ivs : List (Int × Int)) (ts : List SongInfo) :
    ((process_audio_into_segments silent tol audio ivs ts).map
        Emitted.track).Sublist ts ∧
      (process_audio_into_segments silent tol audio ivs ts).length ≤ ts.length ∧
      (ts.Nodup →
        ((process_audio_into_segments silent tol audio ivs ts).map
          Emitted.track).Nodup) := by
  have hs := process_track_sublist silent tol ts audio 0 0
      (ivs ++ [((audio.length : Int), (audio.length : Int))])
  refine ⟨hs, ?_, fun hn => hs.nodup hn⟩
  have hl := hs.length_le
  rwa [List.length_map] at hl

/-- Witness for C6: at the claim's concrete instance the one-track tracklist
is duplicate-free and so are the emitted tracks. -/
theorem c6_matcher_invariants_witness :
    ((process_audio_into_segments allZeroSilent 0 []
        [(59000, 60500), (120000, 120100)] [demoTrack]).map Emitted.track).Nodup := by
  exact (c6_matcher_invariants allZeroSilent 0 []
      [(59000, 60500), (120000, 120100)] [demoTrack]).2.2 (by decide)

/-- C7: the matcher's generator cursor never rewinds — every emitted segment's
recorded cursor position points at its matched interval in the scanned
sequence, and the positions of successive segments strictly increase (the scan
for the next track resumes right after the interval matched for the previous
one). -/
theorem c7_cursor_never_rewinds (silent : List Int → Bool) (tol : Int)
    (audio : List Int) (ivs : List (Int × Int)) (ts : List SongInfo) :
    (∀ x ∈ process_audio_into_segments silent tol audio ivs ts,
        (ivs ++ [((audio.length : Int), (audio.length : Int))]).get? x.index =
          some x.boundary) ∧
      List.Pairwise (fun m n => m < n)
        ((process_audio_into_segments silent tol audio ivs ts).map Emitted.index) := by
  have h := process_cursor_spec silent tol
      (ivs ++ [((audio.length : Int), (audio.length : Int))]) ts audio 0 0
  rw [List.drop_zero] at h
  exact ⟨fun x hx => (h.1 x hx).2, h.2⟩

/-- Witness for C7: at the claim's concrete input the single emitted segment
sits at cursor position 0, which indeed holds its boundary. -/
theorem c7_cursor_never_rewinds_witness :
    ([((59000 : Int), (60500 : Int)), (120000, 120100)] ++
        [((0 : Int), (0 : Int))]).get? 0 = some (59000, 60500) := by
  exact (c7_cursor_never_rewinds allZeroSilent 0 []
      [(59000, 60500), (120000, 120100)] [demoTrack]).1
    ⟨[], demoTrack, (59000, 60500), 0⟩ (by decide)

/-- C4: for a fixed tracklist, waveform and interval sequence (sorted, with
interval ends inside the audio, as the Locator guarantees), the emitted
segment count is monotonically non-decreasing in the tolerance. -/
theorem c4_count_monotone_in_tolerance (silent : List Int → Bool)
    (audio : List Int) (ivs : List (Int × Int)) (ts : List SongInfo)
    (t1 t2 : Int) (_h0 : 0 ≤ t1) (h12 : t1 ≤ t2)
    (hsorted : List.Pairwise (fun a b => a.2 ≤ b.2) ivs)
    (hbound : ∀ b ∈ ivs, b.2 ≤ (audio.length : Int)) :
    (process_audio_into_segments silent t1 audio ivs ts).length ≤
      (process_audio_into_segments silent t2 audio ivs ts).length := by
  have hp : List.Pairwise (fun a b => a.2 ≤ b.2)
      (ivs ++ [((audio.length : Int), (audio.length : Int))]) := by
    rw [List.pairwise_append]
    refine ⟨hsorted, by simp, ?_⟩
    intro a ha b hb
    obtain rfl : b = ((audio.length : Int), (audio.length : Int)) := by
      simpa using hb
    exact hbound a ha
  have h := process_length_mono hp ts silent silent t1 t2 0 0 audio audio
      0 0 0 0 h12 (le_refl 0) (le_refl 0)
  rw [List.drop_zero] at h
  exact h

/-- Witness for C4 at tolerances 0 and 5 with no detected interior silence. -/
theorem c4_count_monotone_in_tolerance_witness :
    (process_audio_into_segments allZeroSilent 0 [] [] [demoTrack]).length ≤
      (process_audio_into_segments allZeroSilent 5 [] [] [demoTrack]).length := by
  exact c4_count_monotone_in_tolerance allZeroSilent [] [] [demoTrack] 0 5
      (by decide) (by decide) (by decide) (by decide)

/-- C3 is false on the code: the matcher iterates the tracklist in the order
the track lines were parsed from the file — parse_album_info never sorts by
track_number.  With the song lines listed in the order 2, 1 both tracks match
a silence, and the emitted segments carry track numbers [2, 1], which is not
ascending. -/
theorem c3_counterexample :
    ((process_audio_into_segments allZeroSilent 0 []
          [(60000, 60100), (120000, 120200)]
          (parse_album_info
            [TrackLine.song 2 ("b") ("1:00"), TrackLine.song 1 ("a") ("0:30")])).map
        (fun x => x.track.track_number)) = [2, 1] ∧
      ¬ List.Pairwise (fun m n => m ≤ n)
        ((process_audio_into_segments allZeroSilent 0 []
            [(60000, 60100), (120000, 120200)]
            (parse_album_info
              [TrackLine.song 2 ("b") ("1:00"), TrackLine.song 1 ("a") ("0:30")])).map
          (fun x => x.track.track_number)) := by
  decide

/-- C3 amended: the matcher processes tracks in the order their lines occur in
the tracklist file — parse_album_info preserves the file order of the song
lines, and the emitted segments preserve tracklist (parse) order; they are in
track_number order only when the file already lists tracks ascending. -/
theorem c3_amended_parse_order (lines : List TrackLine) :
    (parse_album_info lines).map SongInfo.track_number = songNumbers lines ∧
      ∀ (silent : List Int → Bool) (tol : Int) (audio : List Int)
        (ivs : List (Int × Int)),
        ((process_audio_into_segments silent tol audio ivs
            (parse_album_info lines)).map Emitted.track).Sublist
          (parse_album_info lines) := by
  constructor
  · simpa [parse_album_info] using parse_tracks_numbers lines ⟨[], "", "", none⟩
  · intro silent tol audio ivs
    exact process_track_sublist silent tol (parse_album_info lines) audio 0 0 _

/-- C8: a song line whose captured duration text fails
duration_string_to_millis (missing colon pair, non-numeric text, or a negative
component all make it return -1) still yields a parsed track — parsing is a
total function, never fatal — and parse_album_info forces the track's expected
duration to max(-1, 0) = 0.  A duration-0 track then matches the very next
silent interval, whose end cannot be before the running offset minus the
tolerance. -/
theorem c8_failed_duration_yields_zero (pre : List TrackLine) (n : Nat)
    (title s : String) (h : duration_string_to_millis s = -1) :
    ((parse_album_info (pre ++ [TrackLine.song n title s])).getLast?).map
        SongInfo.duration = some 0 ∧
      ∀ (iv : Int × Int) (ivs : List (Int × Int)) (tol offset : Int),
        0 ≤ tol → offset ≤ iv.2 →
        findMatch 0 tol offset (iv :: ivs) = some (0, iv, ivs) := by
  constructor
  · rw [parse_album_info_last_duration, h]
    norm_num
  · intro iv ivs tol offset h0 hoff
    obtain ⟨ia, ib⟩ := iv
    have hcond : (0 : Int) - tol ≤ ib - offset := by
      simp only at hoff
      omega
    rw [findMatch, if_pos hcond]

/-- Witness for C8: the text 1:2:3 has no single colon pair, so
duration_string_to_millis returns -1, yet the line parses and the resulting
track's duration is 0. -/
theorem c8_failed_duration_yields_zero_witness :
    ((parse_album_info [TrackLine.song 1 ("x") ("1:2:3")]).getLast?).map
        SongInfo.duration = some 0 := by
  exact (c8_failed_duration_yields_zero [] 1 ("x") ("1:2:3") (by decide)).1

/-- C2 is false on the code: when zero trailing silence is detected the source
floors the trailing length to 1 and slices audio[leading:-1], dropping exactly
the final millisecond.  On [1, 2, 3] with the all-zero chunk silence test no
trailing silence is detected, yet the returned view is [1, 2], which no longer
contains the original last sample 3. -/
theorem c2_counterexample :
    detect_leading_silence allZeroSilent (([1, 2, 3] : List Int).reverse) = 0 ∧
      (strip_audio_segment allZeroSilent [1, 2, 3]).1 = [1, 2] ∧
      ¬ (3 : Int) ∈ (strip_audio_segment allZeroSilent [1, 2, 3]).1 := by
  decide

/-- C2 amended: for a segment with zero detected trailing silence the trim
operation returns the slice [leading, length - 1) — the max(trailing, 1) guard
prevents the empty [:-0] slice but drops exactly the final millisecond; the
same holds for segments_strip in audioutil.py. -/
theorem c2_amended_zero_trailing_drops_last_ms (silent : List Int → Bool)
    (audio : List Int) (p : String)
    (h : detect_leading_silence silent audio.reverse = 0) :
    strip_audio_segment silent audio =
        (audio.dropLast.drop (detect_leading_silence silent audio),
          detect_leading_silence silent audio, 1) ∧
      segments_strip silent [(p, audio)] =
        [(p, audio.dropLast.drop (detect_leading_silence silent audio))] := by
  have key : pySliceNegEnd audio (detect_leading_silence silent audio) 1 =
      audio.dropLast.drop (detect_leading_silence silent audio) := by
    simp only [pySliceNegEnd, List.dropLast_eq_take, List.drop_take]
  constructor
  · simp [strip_audio_segment, h, key]
  · simp [segments_strip, h, key]

/-- Witness for C2 amended: trimming [1, 2, 3], which has no leading or
trailing silence under the all-zero test, returns the view [1, 2] with
leading length 0 and trailing length 1. -/
theorem c2_amended_zero_trailing_drops_last_ms_witness :
    strip_audio_segment allZeroSilent [1, 2, 3] = ([1, 2], 0, 1) := by
  exact (c2_amended_zero_trailing_drops_last_ms allZeroSilent [1, 2, 3] ("p")
      (by decide)).1

/-- C10: strip_audio_segment returns trailing length max(detected_trailing, 1)
— hence always at least 1 — leading length exactly the detected leading
silence, and the view that is the explicit-bounds slice
[leading, length - max(detected_trailing, 1)) of the input. -/
theorem c10_strip_slice_bounds (silent : List Int → Bool) (audio : List Int) :
    (strip_audio_segment silent audio).2.2 =
        max (detect_leading_silence silent audio.reverse) 1 ∧
      1 ≤ (strip_audio_segment silent audio).2.2 ∧
      (strip_audio_segment silent audio).2.1 =
        detect_leading_silence silent audio ∧
      (strip_audio_segment silent audio).1 =
        (audio.drop (detect_leading_silence silent audio)).take
          (audio.length - max (detect_leading_silence silent audio.reverse) 1 -
            detect_leading_silence silent audio) := by
  refine ⟨rfl, ?_, rfl, rfl⟩
  show 1 ≤ max (detect_leading_silence silent audio.reverse) 1
  exact Nat.le_max_right _ _

end AudioSplitter
